import Mathlib

/-!
Shallow embedding of the twmb/dash concurrent queue library.

Machine words (Go `uintptr`, 64-bit) are modelled as `Nat` with explicit
reduction modulo `2 ^ 64`; Go's `int` is modelled as `Int` via a two's
complement reinterpretation (`toSigned`).  Pointers (`unsafe.Pointer`) are
modelled as `Option Nat`, with `none` standing for the null pointer
(`primitive.Null` / a zero `unsafe.Pointer`).

Sequential semantics: atomic loads return the current field value and a
`CompareAndSwapUintptr` whose expected value matches succeeds (the
primitive returns the freshly written value together with `true`, as in
`primitive`'s `CompareAndSwapUintptr`).  Loop bodies of the lock-free
retry loops are embedded as step functions whose outcome says whether the
iteration enqueued/dequeued, reported full/empty, or retries.
-/

namespace Dash

/-- wordMod is 2^64, the modulus of Go `uintptr` arithmetic on a 64-bit
machine (`primitive.UpSz = 8`). -/
def wordMod : Nat := 2 ^ 64

theorem wordMod_eq : wordMod = 18446744073709551616 := by norm_num [wordMod]

/-- wsub is Go `uintptr` subtraction `a - b`, wrapping modulo `2^64`. -/
def wsub (a b : Nat) : Nat := (a + (wordMod - b % wordMod)) % wordMod

/-- toSigned reinterprets a 64-bit unsigned word as Go's signed `int`
(two's complement). -/
def toSigned (x : Nat) : Int :=
  if x % wordMod < 2 ^ 63 then (x % wordMod : Int)
  else (x % wordMod : Int) - (wordMod : Int)

theorem wsub_eq_of_le {a b : Nat} (hb : b ≤ a) (ha : a < wordMod)
    (hbw : b < wordMod) : wsub a b = a - b := by
  rw [wsub, Nat.mod_eq_of_lt hbw, wordMod_eq] at *
  omega

theorem wsub_lt (a b : Nat) : wsub a b < wordMod := by
  rw [wsub, wordMod_eq]; omega

/-! ## primitive.Next2

Source (`primitive` package):

    func Next2(v uintptr) uintptr {
        v--
        for i := uintptr(1); i < UpSz<<3; i <<= 1 {
            v |= v >> i
        }
        return v + 1
    }

With `UpSz<<3 = 64` the loop runs `i = 1, 2, 4, 8, 16, 32`. -/

/-- smearStep is one iteration of the `Next2` bit-smearing loop:
`v |= v >> i`. -/
def smearStep (v i : Nat) : Nat := v ||| (v >>> i)

/-- smear is the unrolled `Next2` loop body: the or-shift cascade with
shift distances 1, 2, 4, 8, 16, 32 (the values taken by `i` while
`i < UpSz<<3 = 64`). -/
def smear (v : Nat) : Nat :=
  smearStep (smearStep (smearStep (smearStep (smearStep (smearStep v 1) 2) 4) 8) 16) 32

/-- Next2 is `primitive.Next2`: decrement (wrapping), smear, increment
(wrapping). -/
def Next2 (v : Nat) : Nat := (smear (wsub v 1) + 1) % wordMod

theorem smearStep_testBit (x n j : Nat) :
    (smearStep x n).testBit j = (x.testBit j || x.testBit (j + n)) := by
  simp [smearStep, Nat.testBit_or, Nat.testBit_shiftRight, Nat.add_comm]

theorem smearStep_cover (x y n : Nat)
    (hy : ∀ j, y.testBit j = true ↔ ∃ d, d < n ∧ x.testBit (j + d) = true) :
    ∀ j, (smearStep y n).testBit j = true ↔
      ∃ d, d < 2 * n ∧ x.testBit (j + d) = true := by
  intro j
  rw [smearStep_testBit, Bool.or_eq_true, hy j, hy (j + n)]
  constructor
  · rintro (⟨d, hd, hx⟩ | ⟨d, hd, hx⟩)
    · exact ⟨d, by omega, hx⟩
    · exact ⟨n + d, by omega, by rwa [← Nat.add_assoc]⟩
  · rintro ⟨d, hd, hx⟩
    by_cases hdn : d < n
    · exact Or.inl ⟨d, hdn, hx⟩
    · exact Or.inr ⟨d - n, by omega, by rw [Nat.add_assoc, Nat.add_sub_cancel' (by omega)]; exact hx⟩

theorem smear_cover (x : Nat) :
    ∀ j, (smear x).testBit j = true ↔ ∃ d, d < 64 ∧ x.testBit (j + d) = true := by
  have h0 : ∀ j, x.testBit j = true ↔ ∃ d, d < 1 ∧ x.testBit (j + d) = true := by
    intro j
    constructor
    · intro h; exact ⟨0, Nat.zero_lt_one, by simpa using h⟩
    · rintro ⟨d, hd, h⟩
      have : d = 0 := by omega
      simpa [this] using h
  have h1 := smearStep_cover x x 1 h0
  have h2 := smearStep_cover x (smearStep x 1) 2 h1
  have h4 := smearStep_cover x (smearStep (smearStep x 1) 2) 4 h2
  have h8 := smearStep_cover x (smearStep (smearStep (smearStep x 1) 2) 4) 8 h4
  have h16 := smearStep_cover x (smearStep (smearStep (smearStep (smearStep x 1) 2) 4) 8) 16 h8
  have h32 := smearStep_cover x
    (smearStep (smearStep (smearStep (smearStep (smearStep x 1) 2) 4) 8) 16) 32 h16
  simpa [smear] using h32

theorem testBit_log2_self {u : Nat} (h : u ≠ 0) : u.testBit u.log2 = true := by
  have h1 : 2 ^ u.log2 ≤ u := Nat.log2_self_le h
  have h2 : u < 2 ^ (u.log2 + 1) := Nat.lt_log2_self
  have hdiv : u / 2 ^ u.log2 = 1 := by
    apply Nat.div_eq_of_lt_le
    · simpa using h1
    · calc u < 2 ^ (u.log2 + 1) := h2
        _ = (1 + 1) * 2 ^ u.log2 := by ring
  rw [Nat.testBit_to_div_mod, hdiv]
  decide

theorem smear_eq {u : Nat} (h : u ≠ 0) (hu : u < 2 ^ 64) :
    smear u = 2 ^ (u.log2 + 1) - 1 := by
  have hlog : u.log2 < 64 := (Nat.log2_lt h).2 hu
  apply Nat.eq_of_testBit_eq
  intro j
  rw [Nat.testBit_two_pow_sub_one]
  by_cases hj : j < u.log2 + 1
  · rw [decide_eq_true hj, smear_cover]
    refine ⟨u.log2 - j, by omega, ?_⟩
    have : j + (u.log2 - j) = u.log2 := by omega
    rw [this]
    exact testBit_log2_self h
  · rw [decide_eq_false hj]
    cases hb : (smear u).testBit j with
    | false => rfl
    | true =>
      exfalso
      obtain ⟨d, _, hbit⟩ := (smear_cover u j).1 hb
      have hlt : u < 2 ^ (j + d) := by
        calc u < 2 ^ (u.log2 + 1) := Nat.lt_log2_self
          _ ≤ 2 ^ (j + d) := Nat.pow_le_pow_right (by omega) (by omega)
      rw [Nat.testBit_lt_two_pow hlt] at hbit
      exact Bool.false_ne_true hbit

theorem wsub_one {v : Nat} (h1 : 1 ≤ v) (h2 : v < wordMod) : wsub v 1 = v - 1 :=
  wsub_eq_of_le h1 h2 (by rw [wordMod_eq]; omega)

theorem Next2_one : Next2 1 = 1 := by
  have h : wsub 1 1 = 0 := wsub_one (Nat.le_refl 1) (by rw [wordMod_eq]; omega)
  rw [Next2, h]
  decide

theorem Next2_eq_pow {v : Nat} (h1 : 2 ≤ v) (h2 : v ≤ 2 ^ 63) :
    Next2 v = 2 ^ ((v - 1).log2 + 1) := by
  have hv : v < wordMod := by rw [wordMod_eq]; omega
  have hne : v - 1 ≠ 0 := by omega
  have hlt : v - 1 < 2 ^ 64 := by omega
  have hlog : (v - 1).log2 < 63 := by
    rw [Nat.log2_lt hne]
    omega
  rw [Next2, wsub_one (by omega) hv, smear_eq hne hlt]
  have hpow : (0:Nat) < 2 ^ ((v - 1).log2 + 1) := Nat.pos_pow_of_pos _ (by omega)
  have hple : 2 ^ ((v - 1).log2 + 1) ≤ 2 ^ 63 :=
    Nat.pow_le_pow_right (by omega) (by omega)
  rw [Nat.sub_add_cancel hpow]
  apply Nat.mod_eq_of_lt
  rw [wordMod_eq]
  have : (2:Nat) ^ 63 = 9223372036854775808 := by norm_num
  omega

/-! ## Vyukov queue family (mpmcdvq, and the gating tests of the variants)

Source `mpmcdvq`:

    type cell struct { seq uintptr; ptr unsafe.Pointer; _pad ... }
    type Queue struct { mask uintptr; bufPtr unsafe.Pointer; enqPos, deqPos uintptr }

    func New(size uint) *Queue {
        size2 := primitive.Next2(uintptr(size))
        buf := make([]cell, size2+1) // pad one cell at the start
        for i := uintptr(0); i < size2+1; i++ { buf[i].seq = i - 1 }
        q := &Queue{ mask: size2 - 1, bufPtr: ...buf.Data + cellSz }
        return q
    }

The `bufPtr` offset of one `cellSz` means logical cell `j` (the cell
addressed as `bufPtr + cellSz*j`) is `buf[j+1]`, whose initial `seq` is
`(j+1) - 1` with wrapping `uintptr` subtraction.  We model the cell array
as the function `cells : Nat → Cell` giving that logical view. -/

/-- GoPtr models `unsafe.Pointer`; `none` is the null pointer
(`primitive.Null`). -/
abbrev GoPtr := Option Nat

/-- Cell is `mpmcdvq.cell` (without the padding bytes, which carry no
data). -/
structure Cell where
  seq : Nat
  ptr : GoPtr
  deriving Repr, DecidableEq

/-- DVQ is `mpmcdvq.Queue`: `mask`, the logical cell array reached via
`bufPtr`, and the two positions.  Padding fields carry no data and are
omitted. -/
structure DVQ where
  mask : Nat
  cells : Nat → Cell
  enqPos : Nat
  deqPos : Nat

/-- capacity is the `size2` used by `New`: the number of usable cells. -/
def capacity (size : Nat) : Nat := Next2 (size % wordMod)

/-- New is `mpmcdvq.New`: round the size up with `Next2`, allocate
`size2+1` cells whose raw cell `i` gets `seq = i - 1` (wrapping), and
point `bufPtr` one cell past the start, so logical cell `j` has
`seq = (j+1) - 1`. -/
def New (size : Nat) : DVQ :=
  let size2 := Next2 (size % wordMod)
  { mask := wsub size2 1
    cells := fun j => { seq := wsub (j + 1) 1, ptr := none }
    enqPos := 0
    deqPos := 0 }

/-- StepOutcome tells what one iteration of a lock-free retry loop did:
`ok` means the CAS claimed the slot and the operation completed, `full`
means the fail-fast return (queue full / empty), `retry` means the loop
reloads the position and runs again. -/
inductive StepOutcome where
  | ok
  | full
  | retry
  deriving Repr, DecidableEq

/-- tryEnqueueStep is the loop body of `mpmcdvq.Queue.TryEnqueue` under
interference-free (sequential) semantics, where the CAS on `enqPos`
succeeds:

    pos := atomic.LoadUintptr(&q.enqPos)
    c = cell at pos & mask
    seq := atomic.LoadUintptr(&c.seq)
    cmp := int(seq - pos)
    if cmp == 0 { pos, _ = CAS(&q.enqPos, pos, pos+1)  // pos becomes pos+1
                  c.ptr = ptr; atomic.StoreUintptr(&c.seq, pos); return true }
    if cmp < 0  { return }          // queue full
    pos = atomic.LoadUintptr(&q.enqPos); retry

The returned queue is the state after the iteration. -/
def tryEnqueueStep (q : DVQ) (p : GoPtr) : DVQ × StepOutcome :=
  let pos := q.enqPos
  let idx := pos &&& q.mask
  let seq := (q.cells idx).seq
  let cmp := toSigned (wsub seq pos)
  if cmp = 0 then
    let pos1 := (pos + 1) % wordMod
    ({ q with
        enqPos := pos1
        cells := fun j => if j = idx then { seq := pos1, ptr := p } else q.cells j },
      .ok)
  else if cmp < 0 then (q, .full)
  else (q, .retry)

/-- tryDequeueStep is the loop body of `mpmcdvq.Queue.TryDequeue` under
interference-free semantics (the CAS on `deqPos` succeeds):

    pos := atomic.LoadUintptr(&q.deqPos)
    c = cell at pos & mask
    seq := atomic.LoadUintptr(&c.seq)
    cmp := int(seq - (pos + 1))
    if cmp == 0 { pos, _ = CAS(&q.deqPos, pos, pos+1)  // pos becomes pos+1
                  ptr = c.ptr; c.ptr = primitive.Null
                  atomic.StoreUintptr(&c.seq, pos+q.mask); return ptr, true }
    if cmp < 0  { return }          // queue empty, ptr stays null
    pos = atomic.LoadUintptr(&q.deqPos); retry

The middle component is the returned pointer (null unless `ok`). -/
def tryDequeueStep (q : DVQ) : DVQ × GoPtr × StepOutcome :=
  let pos := q.deqPos
  let idx := pos &&& q.mask
  let seq := (q.cells idx).seq
  let cmp := toSigned (wsub seq ((pos + 1) % wordMod))
  if cmp = 0 then
    let pos1 := (pos + 1) % wordMod
    ({ q with
        deqPos := pos1
        cells := fun j =>
          if j = idx then { seq := (pos1 + q.mask) % wordMod, ptr := none }
          else q.cells j },
      (q.cells idx).ptr, .ok)
  else if cmp < 0 then (q, none, .full)
  else (q, none, .retry)

/-! ## Full / empty gating tests of every variant

The mpmc variant tests `int(seq - pos)` (enqueue) and
`int(seq - (pos+1))` (dequeue); mpsc keeps the signed test on the
multi-producer enqueue side and uses the bare unsigned comparison
`seq < q.deqPos+1` on its single-consumer dequeue; spmc is the mirror
image (`seq < q.enqPos` on enqueue, signed on dequeue); spsc uses the
unsigned comparison on both sides. -/

/-- signedFullTest is the mpmc/mpsc enqueue gate: `int(seq - pos) < 0`. -/
def signedFullTest (seq pos : Nat) : Bool := toSigned (wsub seq pos) < 0

/-- signedEmptyTest is the mpmc/spmc dequeue gate:
`int(seq - (pos+1)) < 0`. -/
def signedEmptyTest (seq pos : Nat) : Bool :=
  toSigned (wsub seq ((pos + 1) % wordMod)) < 0

/-- unsignedFullTest is the spsc/spmc enqueue gate: the bare unsigned
comparison `seq < q.enqPos`. -/
def unsignedFullTest (seq pos : Nat) : Bool := seq % wordMod < pos % wordMod

/-- unsignedEmptyTest is the spsc/mpsc dequeue gate: the bare unsigned
comparison `seq < q.deqPos+1`. -/
def unsignedEmptyTest (seq pos : Nat) : Bool :=
  seq % wordMod < (pos + 1) % wordMod

/-! ## follyq turn broker

Source constants: `turnShift = 6`, `turnWaitMask = 1<<turnShift - 1`,
`minSpins = 4`, `maxSpins = 2000`. -/

def turnShift : Nat := 6

def turnWaitMask : Nat := 1 <<< turnShift - 1

def minSpins : Nat := 4

def maxSpins : Nat := 2000

/-- encodeTurn is `follyq.encodeTurn`: saturate the waiter count at
`turnWaitMask` and pack `turnNumber<<turnShift | turnWait` (wrapping
`uintptr` shift). -/
def encodeTurn (turnNumber turnWait : Nat) : Nat :=
  let turnWait := if turnWaitMask < turnWait then turnWaitMask else turnWait
  ((turnNumber <<< turnShift) % wordMod) ||| turnWait

/-- getTurnNumber is `follyq.getTurnNumber`:
`(turn &^ turnWaitMask) >> turnShift`. -/
def getTurnNumber (turn : Nat) : Nat :=
  (turn &&& ((wordMod - 1) ^^^ turnWaitMask)) >>> turnShift

/-- getTurnWait is `follyq.getTurnWait`: `turn & turnWaitMask`. -/
def getTurnWait (turn : Nat) : Nat := turn &&& turnWaitMask

/-- maxWaitBound is `math.MaxUint32 >> (turnShift+1)`, the bound in
`waitFor`'s past-turn assertion. -/
def maxWaitBound : Nat := (2 ^ 32 - 1) >>> (turnShift + 1)

/-- WaitCheck is the decision taken by one iteration of
`turnBroker.waitFor`'s loop head: `done` when the state's turn number is
the requested turn, `panicked` for the past-turn assertion
(`panic("turn is in the past")`), `spinOrBlock` when the iteration goes
on to spin or park. -/
inductive WaitCheck where
  | done
  | panicked
  | spinOrBlock
  deriving Repr, DecidableEq

/-- waitForCheck is the loop head of `turnBroker.waitFor` applied to the
loaded futex state word:

    curTurn := getTurnNumber(state)
    if curTurn == turn { break }
    waitingFor := turn - curTurn
    if waitingFor >= math.MaxUint32>>(turnShift+1) { panic("turn is in the past") }
    ... // spin or park
-/
def waitForCheck (turn state : Nat) : WaitCheck :=
  let curTurn := getTurnNumber state
  if curTurn = turn then .done
  else if maxWaitBound ≤ wsub turn curTurn then .panicked
  else .spinOrBlock

/-- spinSample is the `spinUpdate` value computed after `waitFor`
succeeds (the `tries`-derived sample, before the moving average):

    if tries >= maxSpins { spinUpdate = minSpins }
    else { spinUpdate = minSpins
           dubTries := tries << 1
           if dubTries > spinUpdate { spinUpdate = dubTries }
           if maxSpins < spinUpdate { spinUpdate = maxSpins } }

`tries` is a `uint32`, so `tries << 1` wraps modulo `2^32` (the wrap is
unreachable in this branch since `tries < maxSpins`). -/
def spinSample (tries : Nat) : Nat :=
  if maxSpins ≤ tries then minSpins
  else
    let spinUpdate := minSpins
    let dubTries := (tries <<< 1) % 2 ^ 32
    let spinUpdate := if spinUpdate < dubTries then dubTries else spinUpdate
    if maxSpins < spinUpdate then maxSpins else spinUpdate

/-- asr3 is Go's arithmetic right shift `x >> 3` on a signed `int`,
which floors towards negative infinity. -/
def asr3 (x : Int) : Int := Int.fdiv x 8

/-- updateSpinCutoff is the value stored (or CASed) into `*spinCutoff`
by `turnBroker.waitFor` when cutoff updating runs:

    if givenSpinCount == 0 { store(spinCutoff, spinUpdate) }
    else { spinUpdate = uint32(int(givenSpinCount) + (int(spinUpdate)-int(givenSpinCount))>>3)
           CAS(spinCutoff, givenSpinCount, spinUpdate) }

The `uint32` conversion takes the low 32 bits of the signed result. -/
def updateSpinCutoff (givenSpinCount tries : Nat) : Nat :=
  let spinUpdate := spinSample tries
  if givenSpinCount = 0 then spinUpdate
  else (((givenSpinCount : Int) + asr3 ((spinUpdate : Int) - (givenSpinCount : Int))) % (2 ^ 32 : Int)).toNat

/-! ## follyq queue: spin-update frequency flag

Source (`folly.go`, both `Queue.enqueue` and `Queue.dequeue`):

    maybeUpdateSpin := ticket>>updateSpinFreqShift == 0

with `updateSpinFreqShift = 7`. -/

def updateSpinFreqShift : Nat := 7

/-- maybeUpdateSpin is the flag `ticket>>updateSpinFreqShift == 0`
computed by `follyq.Queue.enqueue` and `follyq.Queue.dequeue`. -/
def maybeUpdateSpin (ticket : Nat) : Bool :=
  (ticket % wordMod) >>> updateSpinFreqShift = 0

/-! ## block.Block: Prime / Cancel / Wait

`Prime` performs two atomic loads of `b.counter` (with a `Gosched`
between them, so a concurrent `Signal` may change the value in between)
and one load of `b.lock.write`.  We embed it as a function of the values
those three loads observe, returning the `(primer, primed)` results and
the net change applied to `b.waiters`. -/

/-- PrimeResult carries `Prime`'s return values and its effect on
`waiters`. -/
structure PrimeResult where
  primer : Nat
  primed : Bool
  waitersDelta : Int
  deriving Repr, DecidableEq

/-- primeObserved is `Block.Prime(last)` as a function of the observed
values: `c1` and `c2` are what the two atomic loads of `b.counter`
return and `w` is what the load of `b.lock.write` returns:

    primer = atomic.LoadUintptr(&b.counter)          // c1
    if primer != last { return }
    runtime.Gosched()
    primer = atomic.LoadUintptr(&b.counter)          // c2
    if primer != last || atomic.LoadUint32(&b.lock.write) != 0 { return }
    primed = true
    atomic.AddInt32(&b.waiters, 1)
-/
def primeObserved (last c1 c2 w : Nat) : PrimeResult :=
  if c1 ≠ last then { primer := c1, primed := false, waitersDelta := 0 }
  else if c2 ≠ last ∨ w ≠ 0 then { primer := c2, primed := false, waitersDelta := 0 }
  else { primer := c2, primed := true, waitersDelta := 1 }

/-- cancelDelta is the effect of `Block.Cancel` on `waiters`:
`atomic.AddInt32(&b.waiters, -1)`. -/
def cancelDelta : Int := -1

/-- WaitStep is what one iteration of `Block.Wait`'s inner loop does:
`ret obs delta` means the call returns after observing counter value
`obs`, having applied `delta` to `waiters`; `again` means the loop
continues (failed `TryRLock`, or `cond.Wait` parked and the outer loop
restarts). -/
inductive WaitStep where
  | ret (obs : Nat) (delta : Int)
  | again
  deriving Repr, DecidableEq

/-- waitRound is one full pass of `Block.Wait`'s loops as a function of
the observed values: `c1` is the atomic load of `b.counter` in the inner
loop, `rlockOk` whether `b.lock.TryRLock()` succeeded, and `c2` the
plain read of `b.counter` done with the reader lock held:

    for {
        for { runtime.Gosched()
              if primer != atomic.LoadUintptr(&b.counter) {     // c1
                  atomic.AddInt32(&b.waiters, -1); return }
              if b.lock.TryRLock() { break } }                  // rlockOk
        if primer != b.counter {                                // c2
            atomic.AddInt32(&b.waiters, -1); b.lock.Unlock(); return }
        b.cond.Wait()
    }
-/
def waitRound (primer c1 : Nat) (rlockOk : Bool) (c2 : Nat) : WaitStep :=
  if primer ≠ c1 then .ret c1 (-1)
  else if rlockOk then
    if primer ≠ c2 then .ret c2 (-1)
    else .again
  else .again

/-- waitRun runs `Block.Wait` over a finite trace of per-iteration
observations; `none` means the call is still looping (or parked) when
the trace ends. -/
def waitRun (primer : Nat) : List (Nat × Bool × Nat) → Option (Nat × Int)
  | [] => none
  | (c1, rlockOk, c2) :: rest =>
    match waitRound primer c1 rlockOk c2 with
    | .ret obs delta => some (obs, delta)
    | .again => waitRun primer rest

/-! ## Theorems for the claims -/

/-- enqGateDiff is the gating comparison `int(seq - pos)` computed by
`mpmcdvq.Queue.TryEnqueue` at the loaded enqueue position. -/
def enqGateDiff (q : DVQ) : Int :=
  toSigned (wsub (q.cells (q.enqPos &&& q.mask)).seq q.enqPos)

/-- deqGateDiff is the gating comparison `int(seq - (pos+1))` computed
by `mpmcdvq.Queue.TryDequeue` at the loaded dequeue position. -/
def deqGateDiff (q : DVQ) : Int :=
  toSigned (wsub (q.cells (q.deqPos &&& q.mask)).seq ((q.deqPos + 1) % wordMod))

/-- C1: the Vyukov MPMC `TryEnqueue` loop body follows the sequence
protocol.  With `pos` the loaded `enqPos` and `seq` the sequence number
of the cell at `pos & mask`: if `int(seq - pos) == 0` the iteration
claims the position (`enqPos` becomes `pos+1`), stores the pointer in
the cell, publishes `seq := pos+1`, touches no other cell and returns
true (`ok`); if the signed difference is negative it returns false
(`full`) with the queue state unmodified; otherwise it reloads `enqPos`
and retries (`retry`), also leaving the state unmodified. -/
theorem C1_tryEnqueue_protocol (q : DVQ) (p : GoPtr) :
    (enqGateDiff q = 0 →
      (tryEnqueueStep q p).2 = .ok ∧
      (tryEnqueueStep q p).1.enqPos = (q.enqPos + 1) % wordMod ∧
      (tryEnqueueStep q p).1.cells (q.enqPos &&& q.mask) =
        { seq := (q.enqPos + 1) % wordMod, ptr := p } ∧
      (∀ j, j ≠ q.enqPos &&& q.mask →
        (tryEnqueueStep q p).1.cells j = q.cells j) ∧
      (tryEnqueueStep q p).1.deqPos = q.deqPos ∧
      (tryEnqueueStep q p).1.mask = q.mask) ∧
    (enqGateDiff q < 0 → tryEnqueueStep q p = (q, .full)) ∧
    (0 < enqGateDiff q → tryEnqueueStep q p = (q, .retry)) := by
  refine ⟨fun h => ?_, fun h => ?_, fun h => ?_⟩ <;>
    simp only [tryEnqueueStep, enqGateDiff] at h ⊢
  · rw [if_pos h]
    refine ⟨rfl, rfl, ?_, ?_, rfl, rfl⟩
    · simp
    · intro j hj
      simp [hj]
  · rw [if_neg (by omega), if_pos h]
  · rw [if_neg (by omega), if_neg (by omega)]

/-- C1 witness: on the fresh size-1 queue the gate difference is zero,
so the enqueue step succeeds and advances `enqPos` to 1. -/
theorem C1_tryEnqueue_protocol_witness :
    (tryEnqueueStep (New 1) (some 5)).2 = .ok ∧
    (tryEnqueueStep (New 1) (some 5)).1.enqPos = 1 := by
  have h := (C1_tryEnqueue_protocol (New 1) (some 5)).1 (by decide)
  refine ⟨h.1, ?_⟩
  rw [h.2.1]
  decide

/-- C2: the Vyukov MPMC `TryDequeue` loop body succeeds exactly when
`int(seq - (pos+1)) == 0`; it then returns the pointer stored in the
cell at `pos & mask` with outcome `ok`, clears that cell's slot to the
null sentinel, releases the cell with `seq := pos + mask + 1`
(i.e. `pos + size`), and advances `deqPos`; when the signed difference
is negative it returns the null pointer with outcome `full` (empty) and
the queue state unmodified. -/
theorem C2_tryDequeue_protocol (q : DVQ) :
    ((tryDequeueStep q).2.2 = .ok ↔ deqGateDiff q = 0) ∧
    (deqGateDiff q = 0 →
      (tryDequeueStep q).2.1 = (q.cells (q.deqPos &&& q.mask)).ptr ∧
      (tryDequeueStep q).1.deqPos = (q.deqPos + 1) % wordMod ∧
      (tryDequeueStep q).1.cells (q.deqPos &&& q.mask) =
        { seq := (q.deqPos + q.mask + 1) % wordMod, ptr := none } ∧
      (∀ j, j ≠ q.deqPos &&& q.mask →
        (tryDequeueStep q).1.cells j = q.cells j) ∧
      (tryDequeueStep q).1.enqPos = q.enqPos ∧
      (tryDequeueStep q).1.mask = q.mask) ∧
    (deqGateDiff q < 0 → tryDequeueStep q = (q, none, .full)) := by
  refine ⟨?_, fun h => ?_, fun h => ?_⟩ <;>
    simp only [tryDequeueStep, deqGateDiff] at *
  · constructor
    · intro h
      by_contra hne
      rcases lt_or_gt_of_ne hne with hlt | hgt
      · rw [if_neg (by omega), if_pos hlt] at h
        exact absurd h (by simp)
      · rw [if_neg (by omega), if_neg (by omega)] at h
        exact absurd h (by simp)
    · intro h
      rw [if_pos h]
  · rw [if_pos h]
    refine ⟨rfl, rfl, ?_, ?_, rfl, rfl⟩
    · simp only [if_pos rfl]
      have : ((q.deqPos + 1) % wordMod + q.mask) % wordMod
           = (q.deqPos + q.mask + 1) % wordMod := by
        rw [Nat.mod_add_mod]
        ring_nf
      rw [this]
      simp
    · intro j hj
      simp [hj]
  · rw [if_neg (by omega), if_pos h]

/-- C2 witness: a size-1 queue holding one value (cell sequence 1,
`deqPos` 0) dequeues it: outcome `ok`, pointer 7 returned. -/
theorem C2_tryDequeue_protocol_witness :
    (tryDequeueStep { mask := 0, cells := fun _ => { seq := 1, ptr := some 7 },
                      enqPos := 1, deqPos := 0 }).2.2 = .ok ∧
    (tryDequeueStep { mask := 0, cells := fun _ => { seq := 1, ptr := some 7 },
                      enqPos := 1, deqPos := 0 }).2.1 = some 7 := by
  have h := C2_tryDequeue_protocol
    { mask := 0, cells := fun _ => { seq := 1, ptr := some 7 }, enqPos := 1, deqPos := 0 }
  exact ⟨h.1.2 (by decide), (h.2.1 (by decide)).1⟩

/-- C3 counterexample: at requested size 0 the claim fails.  `Next2(0)`
underflows (`v--` wraps to `2^64 - 1`, the smear keeps it there, and the
final `+1` wraps back to 0), so the constructed capacity is 0 — not a
power of two at all (every power of two is positive), and in particular
not the least power of two ≥ 0, which is 1 — and the mask `size2 - 1`
wraps to `2^64 - 1` instead of being capacity − 1. -/
theorem C3_counterexample :
    capacity 0 = 0 ∧ (New 0).mask = 2 ^ 64 - 1 ∧ (0:Nat) < 1 := by
  refine ⟨by decide, ?_, by decide⟩
  show wsub (Next2 (0 % wordMod)) 1 = 2 ^ 64 - 1
  decide

/-- C3 amended: for every requested size with `1 ≤ size ≤ 2^63`,
`New(size)` constructs a queue whose capacity is the least power of two
greater than or equal to size, whose mask equals that capacity minus 1,
and in which logical cell i (after the one-cell head pad) has initial
sequence number i.  (At size 0 the capacity underflows to 0, and above
`2^63` the rounded size does not fit the machine word.) -/
theorem C3_New_rounds_to_power_of_two (size : Nat)
    (h1 : 1 ≤ size) (h2 : size ≤ 2 ^ 63) :
    size ≤ capacity size ∧
    (∃ k, capacity size = 2 ^ k) ∧
    (∀ m, size ≤ 2 ^ m → capacity size ≤ 2 ^ m) ∧
    (New size).mask = capacity size - 1 ∧
    (∀ i, i < capacity size → ((New size).cells i).seq = i) := by
  have hsw : size % wordMod = size :=
    Nat.mod_eq_of_lt (by rw [wordMod_eq]; omega)
  have hcellseq : ∀ i, i < 2 ^ 63 → ((New size).cells i).seq = i := by
    intro i hi
    show wsub (i + 1) 1 = i
    rw [wsub_one (by omega) (by rw [wordMod_eq]; omega)]
    omega
  rcases Nat.lt_or_ge size 2 with hs1 | hs2
  · have hsize : size = 1 := by omega
    subst hsize
    have hcap : capacity 1 = 1 := by
      rw [capacity, hsw, Next2_one]
    refine ⟨by omega, ⟨0, by rw [hcap]; norm_num⟩, ?_, ?_, ?_⟩
    · intro m _
      rw [hcap]
      exact Nat.one_le_two_pow
    · rw [hcap]
      show wsub (Next2 (1 % wordMod)) 1 = 0
      have : Next2 (1 % wordMod) = 1 := by rw [Nat.mod_eq_of_lt (by rw [wordMod_eq]; omega), Next2_one]
      rw [this, wsub_one (Nat.le_refl 1) (by rw [wordMod_eq]; omega)]
    · intro i hi
      rw [hcap] at hi
      exact hcellseq i (by omega)
  · have hlog : (size - 1).log2 < 63 := by
      rw [Nat.log2_lt (by omega)]
      omega
    have hcap : capacity size = 2 ^ ((size - 1).log2 + 1) := by
      rw [capacity, hsw, Next2_eq_pow hs2 h2]
    have hcaple : capacity size ≤ 2 ^ 63 := by
      rw [hcap]
      exact Nat.pow_le_pow_right (by omega) (by omega)
    refine ⟨?_, ⟨(size - 1).log2 + 1, hcap⟩, ?_, ?_, ?_⟩
    · rw [hcap]
      have := @Nat.lt_log2_self (size - 1)
      omega
    · intro m hm
      rw [hcap]
      apply Nat.pow_le_pow_right (by omega)
      have hle : 2 ^ (size - 1).log2 ≤ size - 1 := Nat.log2_self_le (by omega)
      have hlt : 2 ^ (size - 1).log2 < 2 ^ m := by omega
      have := (Nat.pow_lt_pow_iff_right (a := 2) (by omega)).1 hlt
      omega
    · show wsub (Next2 (size % wordMod)) 1 = capacity size - 1
      have : Next2 (size % wordMod) = capacity size := by rw [capacity]
      rw [this, wsub_one (by rw [hcap]; exact Nat.one_le_two_pow)
        (by rw [wordMod_eq] at *; omega)]
    · intro i hi
      exact hcellseq i (by omega)

/-- C3 witness: size 5 rounds to capacity 8, mask 7, and cell 6 starts
with sequence number 6. -/
theorem C3_New_rounds_to_power_of_two_witness :
    capacity 5 = 8 ∧ (New 5).mask = 7 ∧ ((New 5).cells 6).seq = 6 := by
  have h := C3_New_rounds_to_power_of_two 5 (by decide) (by norm_num)
  have hcap : capacity 5 = 8 := by decide
  refine ⟨hcap, ?_, ?_⟩
  · rw [h.2.2.2.1, hcap]
  · exact h.2.2.2.2 6 (by rw [hcap]; omega)

theorem toSigned_wsub_eq {a b : Nat} (_ha : a < wordMod) (hb : b < wordMod)
    (h1 : -(2 ^ 63 : Int) ≤ (a : Int) - b) (h2 : (a : Int) - b < 2 ^ 63) :
    toSigned (wsub a b) = (a : Int) - b := by
  rw [toSigned, wsub, wordMod_eq] at *
  rw [Nat.mod_eq_of_lt hb]
  split_ifs with h
  · push_cast at *
    omega
  · push_cast at *
    omega

/-- C4 counterexample: the SPSC `TryEnqueue` full test is the unsigned
comparison `seq < enqPos`, not the signed difference test.  At the
wraparound pair `seq = 0`, `enqPos = 2^64 - 1` the signed difference
`int(seq - enqPos)` is `+1`, so by the claim the operation must not
fail, yet the code's test fires (returns full). -/
theorem C4_counterexample :
    unsignedFullTest 0 (2 ^ 64 - 1) = true ∧
    signedFullTest 0 (2 ^ 64 - 1) = false ∧
    toSigned (wsub 0 (2 ^ 64 - 1)) = 1 := by
  refine ⟨?_, ?_, ?_⟩ <;> decide

/-- C4 amended: only the multi-sided paths interpret the difference as
signed machine-word subtraction.  The MPMC `TryEnqueue`/`TryDequeue`,
MPSC `TryEnqueue` and SPMC `TryDequeue` gates fail exactly when the
signed difference `int(seq - pos)` (resp. `int(seq - (pos+1))`) is
negative, for every pair of values including those straddling the
wraparound boundary.  The single-producer enqueue gates (SPSC, SPMC)
and single-consumer dequeue gates (SPSC, MPSC) instead use the unsigned
comparisons `seq < enqPos` resp. `seq < deqPos+1`; these agree with the
signed criterion whenever the true difference lies in
`[-2^63, 2^63)` but diverge at the wrap boundary. -/
theorem C4_signed_gate_tests (seq pos : Nat)
    (hs : seq < wordMod) (hp : pos < wordMod) :
    (signedFullTest seq pos = true ↔ toSigned (wsub seq pos) < 0) ∧
    (signedEmptyTest seq pos = true ↔
      toSigned (wsub seq ((pos + 1) % wordMod)) < 0) ∧
    (unsignedFullTest seq pos = true ↔ seq < pos) ∧
    (unsignedEmptyTest seq pos = true ↔ seq < (pos + 1) % wordMod) ∧
    (-(2 ^ 63 : Int) ≤ (seq : Int) - pos → (seq : Int) - pos < 2 ^ 63 →
      unsignedFullTest seq pos = signedFullTest seq pos) ∧
    (-(2 ^ 63 : Int) ≤ (seq : Int) - ((pos + 1) % wordMod : Nat) →
      ((seq : Int) - ((pos + 1) % wordMod : Nat)) < 2 ^ 63 →
      unsignedEmptyTest seq pos = signedEmptyTest seq pos) := by
  have hp1 : (pos + 1) % wordMod < wordMod :=
    Nat.mod_lt _ (by rw [wordMod_eq]; omega)
  refine ⟨by simp [signedFullTest], by simp [signedEmptyTest],
    ?_, ?_, fun hlo hhi => ?_, fun hlo hhi => ?_⟩
  · simp only [unsignedFullTest, Nat.mod_eq_of_lt hs, Nat.mod_eq_of_lt hp]
    exact decide_eq_true_iff
  · simp only [unsignedEmptyTest, Nat.mod_eq_of_lt hs]
    exact decide_eq_true_iff
  · rw [unsignedFullTest, signedFullTest, toSigned_wsub_eq hs hp hlo hhi,
      Nat.mod_eq_of_lt hs, Nat.mod_eq_of_lt hp]
    rcases Nat.lt_or_ge seq pos with h | h
    · rw [decide_eq_true h, decide_eq_true (show (seq : Int) - pos < 0 by omega)]
    · rw [decide_eq_false (by omega),
        decide_eq_false (show ¬ (seq : Int) - pos < 0 by omega)]
  · rw [unsignedEmptyTest, signedEmptyTest, toSigned_wsub_eq hs hp1 hlo hhi,
      Nat.mod_eq_of_lt hs]
    rcases Nat.lt_or_ge seq ((pos + 1) % wordMod) with h | h
    · rw [decide_eq_true h,
        decide_eq_true (show (seq : Int) - ((pos + 1) % wordMod : Nat) < 0 by omega)]
    · rw [decide_eq_false (by omega),
        decide_eq_false (show ¬ (seq : Int) - ((pos + 1) % wordMod : Nat) < 0 by omega)]

/-- C4 witness: a concrete wrap-straddling pair on the signed mpmc gate
(`seq = 0`, `pos = 2^64 - 1`, signed difference `+1`, no failure) and a
concrete in-range agreement of the unsigned spsc gate with the signed
criterion (`seq = 3 < pos = 5`, both fail). -/
theorem C4_signed_gate_tests_witness :
    signedFullTest 0 (2 ^ 64 - 1) = false ∧
    unsignedFullTest 3 5 = signedFullTest 3 5 := by
  constructor
  · have h := (C4_signed_gate_tests 0 (2 ^ 64 - 1)
      (by rw [wordMod_eq]; omega) (by rw [wordMod_eq]; omega)).1
    have : ¬ toSigned (wsub 0 (2 ^ 64 - 1)) < 0 := by decide
    cases hb : signedFullTest 0 (2 ^ 64 - 1) with
    | false => rfl
    | true => exact absurd (h.1 hb) this
  · exact (C4_signed_gate_tests 3 5 (by rw [wordMod_eq]; omega)
      (by rw [wordMod_eq]; omega)).2.2.2.2.1 (by decide) (by decide)

theorem encodeTurn_eq (t w : Nat) :
    encodeTurn t w = 2 ^ 6 * (t % 2 ^ 58) + min w 63 := by
  rw [encodeTurn]
  have hw : (if turnWaitMask < w then turnWaitMask else w) = min w 63 := by
    have hm : turnWaitMask = 63 := by decide
    rw [hm]
    split_ifs with h <;> omega
  have hA : (t <<< turnShift) % wordMod = 2 ^ 6 * (t % 2 ^ 58) := by
    rw [Nat.shiftLeft_eq, wordMod]
    show t * 2 ^ 6 % 2 ^ 64 = 2 ^ 6 * (t % 2 ^ 58)
    have h64 : (2:Nat) ^ 64 = 2 ^ 6 * 2 ^ 58 := by norm_num
    rw [h64, Nat.mul_comm t (2 ^ 6), Nat.mul_mod_mul_left]
  simp only [hw, hA]
  exact (Nat.mul_add_lt_is_or (by omega) _).symm

/-- C5: the turn broker's word packing round-trips with saturation:
`getTurnWait(encodeTurn(t, w)) = min(w, 63)` for every turn number and
waiter count (the count saturates at `2^turnShift − 1 = 63`), and
`getTurnNumber(encodeTurn(t, w)) = t` for every `t < 2^58`, i.e. small
enough to fit the high bits of the word. -/
theorem C5_turn_packing (t w : Nat) :
    getTurnWait (encodeTurn t w) = min w 63 ∧
    (t < 2 ^ 58 → getTurnNumber (encodeTurn t w) = t) := by
  rw [encodeTurn_eq]
  constructor
  · rw [getTurnWait]
    have hm : turnWaitMask = 2 ^ 6 - 1 := by decide
    rw [hm, Nat.and_pow_two_sub_one_eq_mod, Nat.mul_add_mod]
    exact Nat.mod_eq_of_lt (by omega)
  · intro ht
    rw [getTurnNumber, Nat.mod_eq_of_lt ht]
    have hM : ∀ j, ((wordMod - 1) ^^^ turnWaitMask).testBit j
        = (decide (j < 64) ^^ decide (j < 6)) := by
      intro j
      have h1 : wordMod - 1 = 2 ^ 64 - 1 := by rw [wordMod]
      have h2 : turnWaitMask = 2 ^ 6 - 1 := by decide
      rw [h1, h2, Nat.testBit_xor, Nat.testBit_two_pow_sub_one,
        Nat.testBit_two_pow_sub_one]
    have hAnd : (2 ^ 6 * t + min w 63) &&& ((wordMod - 1) ^^^ turnWaitMask)
        = 2 ^ 6 * t := by
      apply Nat.eq_of_testBit_eq
      intro j
      rw [Nat.testBit_and, hM j,
        Nat.testBit_mul_pow_two_add t (show min w 63 < 2 ^ 6 by omega),
        Nat.testBit_mul_pow_two]
      by_cases h6 : j < 6
      · have h64 : j < 64 := by omega
        simp [h6, h64]
      · by_cases h64 : j < 64
        · have h6' : 6 ≤ j := by omega
          simp [h6, h64, h6']
        · have hbit : t.testBit (j - 6) = false :=
            Nat.testBit_lt_two_pow
              (Nat.lt_of_lt_of_le ht (Nat.pow_le_pow_right (by omega) (by omega)))
          simp [h6, h64, hbit]
    rw [hAnd, Nat.shiftRight_eq_div_pow]
    show 2 ^ 6 * t / 2 ^ 6 = t
    exact Nat.mul_div_cancel_left t (by norm_num)

/-- C5 witness: a saturated pack (waiter count 100 reads back as 63) and
an in-range turn number round trip. -/
theorem C5_turn_packing_witness :
    getTurnWait (encodeTurn 9 100) = min 100 63 ∧
    getTurnNumber (encodeTurn 9 100) = 9 := by
  exact ⟨(C5_turn_packing 9 100).1, (C5_turn_packing 9 100).2 (by norm_num)⟩

/-- C6: the past-turn assertion in `turnBroker.waitFor` fires exactly
when the loaded state's turn number differs from the requested turn and
the wraparound difference `turn − curTurn` is at least
`MaxUint32 >> (turnShift+1)`; when the requested turn is current the
check reports done, and for a near-future turn (difference below the
bound) it never panics. -/
theorem C6_waitFor_past_turn (turn state : Nat) :
    (waitForCheck turn state = .panicked ↔
      (getTurnNumber state ≠ turn ∧
        maxWaitBound ≤ wsub turn (getTurnNumber state))) ∧
    (getTurnNumber state = turn → waitForCheck turn state = .done) ∧
    (wsub turn (getTurnNumber state) < maxWaitBound →
      waitForCheck turn state ≠ .panicked) := by
  simp only [waitForCheck]
  split_ifs with h1 h2 <;> simp_all

/-- C6 witness: requesting the state's own turn reports done (no
panic). -/
theorem C6_waitFor_past_turn_witness :
    waitForCheck 9 (encodeTurn 9 0) = .done := by
  exact (C6_waitFor_past_turn 9 (encodeTurn 9 0)).2.1 (by decide)

theorem spinSample_bounds (tries : Nat) (_h : tries < 2 ^ 32) :
    minSpins ≤ spinSample tries ∧ spinSample tries ≤ maxSpins := by
  rw [spinSample]
  simp only [Nat.shiftLeft_eq, minSpins, maxSpins]
  split_ifs <;> omega

/-- C7: after `waitFor` succeeds with cutoff updating enabled, the
sample is `minSpins = 4` when `tries ≥ maxSpins = 2000`; otherwise it is
the doubled try count clamped from below by 4 and from above by 2000
(so it always lies in `[4, 2000]`); with a previous nonzero cutoff `g`
the value handed to the CAS is the exponential moving average
`g + (sample − g) >> 3` (arithmetic shift, i.e. flooring division by 8);
with a previous cutoff of 0 the sample is stored directly. -/
theorem C7_spin_cutoff_update (tries given : Nat)
    (htries : tries < 2 ^ 32) (hgiven : given < 2 ^ 32) :
    (maxSpins ≤ tries → spinSample tries = minSpins) ∧
    (tries < maxSpins →
      spinSample tries = min maxSpins (max minSpins (2 * tries)) ∧
      minSpins ≤ spinSample tries ∧ spinSample tries ≤ maxSpins) ∧
    (given = 0 → updateSpinCutoff given tries = spinSample tries) ∧
    (given ≠ 0 → (updateSpinCutoff given tries : Int) =
      (given : Int) + Int.fdiv ((spinSample tries : Int) - given) 8) := by
  refine ⟨fun h => ?_, fun h => ?_, fun h => ?_, fun h => ?_⟩
  · rw [spinSample, if_pos h]
  · refine ⟨?_, spinSample_bounds tries htries⟩
    rw [spinSample, if_neg (by omega)]
    simp only [Nat.shiftLeft_eq, minSpins, maxSpins]
    have hdub : tries * 2 ^ 1 % 2 ^ 32 = 2 * tries := by
      rw [Nat.mod_eq_of_lt (by simp only [maxSpins] at h; omega)]
      ring
    rw [hdub]
    split_ifs <;> omega
  · rw [updateSpinCutoff, if_pos h]
  · rw [updateSpinCutoff, if_neg h]
    simp only [asr3]
    obtain ⟨hlo, hhi⟩ := spinSample_bounds tries htries
    set s := spinSample tries with hs
    set g := given with hg
    have hfd := Int.fdiv_add_fmod ((s : Int) - g) 8
    have hfm1 : 0 ≤ ((s : Int) - g).fmod 8 := Int.fmod_nonneg' _ (by omega)
    have hfm2 : ((s : Int) - g).fmod 8 < 8 := Int.fmod_lt_of_pos _ (by omega)
    have hsb : (4 : Int) ≤ s ∧ (s : Int) ≤ 2000 := by
      simp only [minSpins, maxSpins] at hlo hhi
      omega
    have hgb : (1 : Int) ≤ g ∧ (g : Int) < 2 ^ 32 := by omega
    have hnn : 0 ≤ (g : Int) + ((s : Int) - g).fdiv 8 := by omega
    have hub : (g : Int) + ((s : Int) - g).fdiv 8 < 2 ^ 32 := by omega
    rw [Int.emod_eq_of_lt hnn (by exact_mod_cast hub), Int.toNat_of_nonneg hnn]

/-- C7 witness: with 10 tries the sample is 20, and a prior cutoff of
100 moves to `100 + (20 − 100) >> 3 = 90`. -/
theorem C7_spin_cutoff_update_witness :
    spinSample 10 = min maxSpins (max minSpins (2 * 10)) ∧
    (updateSpinCutoff 100 10 : Int) =
      (100 : Int) + Int.fdiv ((spinSample 10 : Int) - 100) 8 := by
  have h := C7_spin_cutoff_update 10 100 (by norm_num) (by norm_num)
  exact ⟨(h.2.1 (by decide)).1, h.2.2.2 (by decide)⟩

/-- C8: evaluation of the spin-update flag computed by
`follyq.Queue.enqueue` / `Queue.dequeue` (`ticket>>updateSpinFreqShift
== 0`).  Ticket 128 is a multiple of 128 yet gets `false`, while ticket
127 is not a multiple of 128 yet gets `true`: the flag is true exactly
for tickets 0..127, once per queue lifetime, not at every 128th
ticket. -/
theorem C8_maybeUpdateSpin_eval :
    maybeUpdateSpin 128 = false ∧ (128 : Nat) % 128 = 0 ∧
    maybeUpdateSpin 127 = true ∧ (127 : Nat) % 128 ≠ 0 ∧
    maybeUpdateSpin 0 = true := by
  refine ⟨?_, ?_, ?_, ?_, ?_⟩ <;> decide

/-- C9: `Block.Prime` returns primed exactly when both counter loads
observed the caller's last value and the lock's write word was 0, and
exactly then it adds one to `waiters`; an unprimed return leaves
`waiters` unchanged, and `Cancel` subtracts one, so a primed `Prime`
followed by `Cancel` nets zero. -/
theorem C9_prime_cancel (last c1 c2 w : Nat) :
    ((primeObserved last c1 c2 w).primed = true ↔
      (c1 = last ∧ c2 = last ∧ w = 0)) ∧
    ((primeObserved last c1 c2 w).waitersDelta =
      if (primeObserved last c1 c2 w).primed then 1 else 0) ∧
    ((primeObserved last c1 c2 w).primed = true →
      (primeObserved last c1 c2 w).waitersDelta + cancelDelta = 0) := by
  rw [primeObserved]
  split_ifs with h1 h2 <;> simp_all [cancelDelta]
  omega

/-- C9 witness: matching observations with an idle lock prime the block
and the prime-then-cancel pair nets zero on `waiters`. -/
theorem C9_prime_cancel_witness :
    (primeObserved 5 5 5 0).primed = true ∧
    (primeObserved 5 5 5 0).waitersDelta + cancelDelta = 0 := by
  have h := C9_prime_cancel 5 5 5 0
  have hp : (primeObserved 5 5 5 0).primed = true := h.1.2 ⟨rfl, rfl, rfl⟩
  exact ⟨hp, h.2.2 hp⟩

/-- C10: whenever `Block.Wait` returns, the counter observation on its
exit path differed from the primer — it never returns while the counter
still equals the primer — and the call decremented `waiters` by exactly
one, whichever exit path it took. -/
theorem C10_wait_returns_on_change (primer obs : Nat) (delta : Int)
    (trace : List (Nat × Bool × Nat))
    (h : waitRun primer trace = some (obs, delta)) :
    obs ≠ primer ∧ delta = -1 := by
  induction trace with
  | nil => exact absurd h (by simp [waitRun])
  | cons head rest ih =>
    obtain ⟨c1, rlockOk, c2⟩ := head
    rw [waitRun, waitRound] at h
    split_ifs at h with h1 h2 h3
    · simp only [Option.some_inj, Prod.mk.injEq] at h
      exact ⟨by omega, h.2.symm⟩
    · simp only [Option.some_inj, Prod.mk.injEq] at h
      exact ⟨by omega, h.2.symm⟩
    · exact ih h
    · exact ih h

/-- C10 witness: a trace whose first iteration observes counter 1
against primer 0 returns with that observation and a single decrement. -/
theorem C10_wait_returns_on_change_witness : (1 : Nat) ≠ 0 ∧ (-1 : Int) = -1 :=
  C10_wait_returns_on_change 0 1 (-1) [(1, false, 0)] (by decide)

end Dash
